import Mathlib

/-!
Shallow embedding of the `tasks.rs` command-line task tracker
(`src/lib.rs`, `src/main.rs`).

Strings are modelled as `List Char`; Rust's `usize` is modelled as `Nat`
with the 64-bit bound made explicit where the code performs machine-level
operations (the bitwise NOT in `Task::from_string`, overflow in
`str::parse::<usize>`).  Code paths that panic in Rust (out-of-bounds
indexing, `expect`) are modelled by explicit `panic` constructors of the
result types, distinct from the `Err` results the functions return.
-/

namespace Todos

abbrev Str := List Char

/-- `SEPARATOR` constant from `src/lib.rs`. -/
def SEPARATOR : Char := '|'

/-- Rust `str::split(sep)` over a list of characters: `"a|b"` gives
`["a","b"]`, the empty string gives `[""]`, `"|"` gives `["",""]`. -/
def splitSep (sep : Char) : Str → List Str
  | [] => [[]]
  | c :: cs =>
    match splitSep sep cs with
    | [] => [[]]
    | p :: ps => if c = sep then [] :: p :: ps else (c :: p) :: ps

/-- `usize::MAX` on a 64-bit target. -/
def USIZE_MAX : Nat := 2 ^ 64 - 1

/-- Bitwise NOT on `usize` (64-bit): `!n = usize::MAX - n`. -/
def usizeNot (n : Nat) : Nat := USIZE_MAX - n

/-- Accumulating digit parser: succeeds iff every character is an ASCII
digit. -/
def parseDigitsAux : Str → Nat → Option Nat
  | [], acc => some acc
  | c :: cs, acc =>
    if c.isDigit then parseDigitsAux cs (acc * 10 + (c.toNat - '0'.toNat)) else none

/-- Rust `str::parse::<usize>()`: an optional leading `'+'`, then one or
more ASCII digits, rejecting values above `usize::MAX`. -/
def parseUsize (s : Str) : Option Nat :=
  let t := match s with
    | '+' :: r => r
    | _ => s
  match t with
  | [] => none
  | _ =>
    match parseDigitsAux t 0 with
    | some v => if v ≤ USIZE_MAX then some v else none
    | none => none

/-- The `Task` struct: a name and a completed flag. -/
structure Task where
  name : Str
  completed : Bool
deriving DecidableEq

/-- `Task::new`: a fresh task is incomplete. -/
def Task.new (name : Str) : Task := ⟨name, false⟩

/-- `Task::complete`: set the completed flag. -/
def Task.complete (t : Task) : Task := { t with completed := true }

/-- Outcome of `Task::from_string`: a decoded task, the `Err` return
("Failed to parse Task"), or a panic (out-of-bounds `parts[1]`, or the
`expect("Not a number")` on the flag field). -/
inductive DecodeResult where
  | ok (t : Task)
  | parseError
  | panic
deriving DecidableEq

/-- `Task::from_string`, exactly as written: the guard is
`!parts.len() == 2`, where `!` is bitwise NOT on `usize`, so the
`parseError` branch fires only when `parts.len()` is `usize::MAX - 2`.
Otherwise `parts[1]` is indexed (panicking if absent) and `parts[0]` is
parsed with `expect` (panicking on failure); `completed` is the flag
compared against `1`. -/
def Task.from_string (content : Str) : DecodeResult :=
  let parts := splitSep SEPARATOR content
  if usizeNot parts.length = 2 then
    .parseError
  else
    match parts with
    | p0 :: p1 :: _ =>
      match parseUsize p0 with
      | some n => .ok ⟨p1, n == 1⟩
      | none => .panic
    | _ => .panic

/-- `Task::to_string`: `format!("{}{}{}", completed, SEPARATOR, name)`
with `completed` rendered as `1` or `0`. -/
def Task.to_string (t : Task) : Str :=
  (if t.completed then '1' else '0') :: SEPARATOR :: t.name

/-- Outcome of a store mutation: the new in-memory list, the
`"Missing task"` error, or a panic (out-of-bounds `Vec::remove`). -/
inductive OpResult where
  | ok (tasks : List Task)
  | missingTask
  | panic
deriving DecidableEq

/-- `add_task`: push a fresh task at the end. -/
def add_task (tasks : List Task) (content : Str) : OpResult :=
  .ok (tasks ++ [Task.new content])

/-- `complete_task`: `get_mut(number)` then `complete()`, or the
`"Missing task"` error when the index is out of range. -/
def complete_task (tasks : List Task) (number : Nat) : OpResult :=
  match tasks[number]? with
  | some t => .ok (tasks.set number t.complete)
  | none => .missingTask

/-- Rust `Vec::remove(index)`: panics when `index` is out of bounds. -/
def vecRemove (tasks : List Task) (index : Nat) : OpResult :=
  if index < tasks.length then .ok (tasks.eraseIdx index) else .panic

/-- `delete_task`, exactly as written: the bound check is
`tasks.len() < number` (not `<=`), then `Vec::remove(number)`. -/
def delete_task (tasks : List Task) (number : Nat) : OpResult :=
  if tasks.length < number then .missingTask
  else vecRemove tasks number

/-- `TaskList::save` as the file content it writes: one `writeln!` per
task, i.e. the encoded line followed by a newline, after truncating. -/
def save : List Task → Str
  | [] => []
  | t :: ts => t.to_string ++ '\n' :: save ts

/-- `str::lines` strips one trailing `'\r'` from a line. -/
def stripCR (s : Str) : Str :=
  if s.getLast? = some '\r' then s.dropLast else s

/-- `str::lines` does not yield a final empty segment after a trailing
newline. -/
def dropTrailingEmpty (ls : List Str) : List Str :=
  if ls.getLast? = some ([] : Str) then ls.dropLast else ls

/-- `BufRead::lines` over the file content: split on `'\n'`, drop the
final empty segment, strip one trailing `'\r'` per line. -/
def linesOf (content : Str) : List Str :=
  (dropTrailingEmpty (splitSep '\n' content)).map stripCR

/-- Outcome of `TaskList::load`: the decoded list, a propagated
`ParseError`, or a panic propagated from `Task::from_string`. -/
inductive LoadResult where
  | ok (tasks : List Task)
  | parseError
  | panic
deriving DecidableEq

/-- The loop body of `TaskList::load`: decode each line in order,
aborting on the first failure. -/
def load_lines : List Str → LoadResult
  | [] => .ok []
  | l :: ls =>
    match Task.from_string l with
    | .ok t =>
      match load_lines ls with
      | .ok ts => .ok (t :: ts)
      | .parseError => .parseError
      | .panic => .panic
    | .parseError => .parseError
    | .panic => .panic

/-- `TaskList::load` from raw file content. -/
def load (content : Str) : LoadResult := load_lines (linesOf content)

/-- One mutating command of `run`. -/
inductive Mutation where
  | add (content : Str)
  | complete (number : Nat)
  | delete (number : Nat)

/-- Dispatch of a mutating command to its store operation, as in `run`. -/
def apply_mutation (tasks : List Task) : Mutation → OpResult
  | .add c => add_task tasks c
  | .complete n => complete_task tasks n
  | .delete n => delete_task tasks n

/-- The parsed `Command` enum. -/
inductive Command where
  | add (task : Str)
  | list
  | complete (number : Nat)
  | delete (number : Nat)
deriving DecidableEq

/-- The error strings `Command::build` can return. -/
inductive CmdError where
  | missingCommand
  | missingTask
  | missingTaskNumber
  | nonIntegerNumber
  | unsupportedCommand
deriving DecidableEq

/-- Outcome of `Command::build`: a command, an `Err`, or the panic of the
`args.next().unwrap()` that discards the program name. -/
inductive BuildResult where
  | ok (c : Command)
  | err (e : CmdError)
  | panic
deriving DecidableEq

/-- `str::to_lowercase` on the ASCII command words. -/
def toLowerStr (s : Str) : Str := s.map Char.toLower

/-- `Command::build`: discard the program name, lowercase the command
word, match it against the four commands, reading one further argument
for `add` and a `usize` argument for `complete`/`delete`. -/
def Command.build : List Str → BuildResult
  | [] => .panic
  | _prog :: rest =>
    match rest with
    | [] => .err .missingCommand
    | w :: args =>
      let command := toLowerStr w
      if command = "add".toList then
        match args with
        | [] => .err .missingTask
        | t :: _ => .ok (.add t)
      else if command = "list".toList then
        .ok .list
      else if command = "complete".toList ∨ command = "delete".toList then
        match args with
        | [] => .err .missingTaskNumber
        | ns :: _ =>
          match parseUsize ns with
          | none => .err .nonIntegerNumber
          | some n =>
            if command = "complete".toList then .ok (.complete n) else .ok (.delete n)
      else
        .err .unsupportedCommand

/-- A name that round-trips through the file format: it contains neither
the field separator nor a line break. -/
def cleanStr (s : Str) : Prop := SEPARATOR ∉ s ∧ '\n' ∉ s ∧ '\r' ∉ s

instance (s : Str) : Decidable (cleanStr s) :=
  inferInstanceAs (Decidable (SEPARATOR ∉ s ∧ '\n' ∉ s ∧ '\r' ∉ s))

/-- A task whose name round-trips through the file format. -/
def cleanTask (t : Task) : Prop := cleanStr t.name

instance (t : Task) : Decidable (cleanTask t) :=
  inferInstanceAs (Decidable (cleanStr t.name))

/-! ### Lemmas about the splitter -/

theorem splitSep_ne_nil (sep : Char) (s : Str) : splitSep sep s ≠ [] := by
  cases s with
  | nil => simp [splitSep]
  | cons c cs =>
    simp only [splitSep]
    cases splitSep sep cs with
    | nil => simp
    | cons p ps =>
      dsimp only
      split <;> simp

theorem splitSep_eq_single (sep : Char) (s : Str) (h : sep ∉ s) : splitSep sep s = [s] := by
  induction s with
  | nil => rfl
  | cons c cs ih =>
    have h1 : ¬ c = sep := fun hc => h (by simp [hc])
    have h2 : sep ∉ cs := fun hm => h (List.mem_cons_of_mem _ hm)
    simp [splitSep, ih h2, h1]

theorem splitSep_append (sep : Char) (a b : Str) (h : sep ∉ a) :
    splitSep sep (a ++ sep :: b) = a :: splitSep sep b := by
  induction a with
  | nil =>
    cases hb : splitSep sep b with
    | nil => exact absurd hb (splitSep_ne_nil sep b)
    | cons p ps => simp [splitSep, hb]
  | cons c a' ih =>
    have h1 : ¬ c = sep := fun hc => h (by simp [hc])
    have h2 : sep ∉ a' := fun hm => h (List.mem_cons_of_mem _ hm)
    simp [splitSep, ih h2, h1]

theorem splitSep_length_le (sep : Char) (s : Str) :
    (splitSep sep s).length ≤ s.length + 1 := by
  induction s with
  | nil => simp [splitSep]
  | cons c cs ih =>
    simp only [splitSep]
    cases hcs : splitSep sep cs with
    | nil => simp
    | cons p ps =>
      rw [hcs] at ih
      dsimp only
      split <;> simp_all
      omega

theorem usizeNot_ne_two (n : Nat) (h : n ≤ 2 ^ 63) : usizeNot n ≠ 2 := by
  have hm : USIZE_MAX = 18446744073709551615 := by norm_num [USIZE_MAX]
  have h63 : (2 : Nat) ^ 63 = 9223372036854775808 := by norm_num
  unfold usizeNot
  omega

/-! ### Lemmas about the record codec -/

theorem from_string_eq_ok (line p0 p1 : Str) (ps : List Str) (v : Nat)
    (hs : splitSep SEPARATOR line = p0 :: p1 :: ps)
    (hck : usizeNot (p0 :: p1 :: ps).length ≠ 2)
    (hv : parseUsize p0 = some v) :
    Task.from_string line = .ok ⟨p1, v == 1⟩ := by
  have hck' : ¬ usizeNot (ps.length + 1 + 1) = 2 := by simpa using hck
  simp [Task.from_string, hs, hv, hck']

theorem from_string_to_string (t : Task) (h : SEPARATOR ∉ t.name) :
    Task.from_string t.to_string = .ok t := by
  obtain ⟨nm, c⟩ := t
  have h0 : SEPARATOR ∉ [(if c then '1' else '0')] := by cases c <;> decide
  have ha := splitSep_append SEPARATOR [(if c then '1' else '0')] nm h0
  rw [splitSep_eq_single SEPARATOR nm h] at ha
  have hv : parseUsize [(if c then '1' else '0')] = some (if c then 1 else 0) := by
    cases c <;> decide
  have hres := from_string_eq_ok (Task.to_string ⟨nm, c⟩) _ _ [] _
    (by simpa [Task.to_string] using ha)
    (by simpa using usizeNot_ne_two 2 (by norm_num)) hv
  rw [hres]
  cases c <;> rfl

/-! ### Lemmas about persistence -/

theorem newline_not_mem_to_string (t : Task) (h : '\n' ∉ t.name) :
    '\n' ∉ Task.to_string t := by
  obtain ⟨nm, c⟩ := t
  cases c <;> simp_all [Task.to_string, SEPARATOR]

theorem stripCR_of_ne (s : Str) (h : s.getLast? ≠ some '\r') : stripCR s = s := by
  unfold stripCR
  rw [if_neg h]

theorem mem_of_getLast?_eq (s : Str) (c : Char) (h : s.getLast? = some c) : c ∈ s := by
  induction s with
  | nil => simp at h
  | cons x xs ih =>
    cases xs with
    | nil => simp_all
    | cons y ys =>
      rw [List.getLast?_cons_cons] at h
      exact List.mem_cons_of_mem _ (ih h)

theorem stripCR_to_string (t : Task) (h : '\r' ∉ t.name) :
    stripCR t.to_string = t.to_string := by
  apply stripCR_of_ne
  intro hl
  have hm := mem_of_getLast?_eq _ _ hl
  obtain ⟨nm, c⟩ := t
  cases c <;> simp_all [Task.to_string, SEPARATOR]

theorem dropTrailingEmpty_cons (a : Str) (ls : List Str) (h : ls ≠ []) :
    dropTrailingEmpty (a :: ls) = a :: dropTrailingEmpty ls := by
  cases ls with
  | nil => exact absurd rfl h
  | cons b l =>
    unfold dropTrailingEmpty
    rw [List.getLast?_cons_cons]
    split
    · exact List.dropLast_cons_of_ne_nil (by simp)
    · rfl

theorem linesOf_save (tasks : List Task) (h : ∀ t ∈ tasks, cleanTask t) :
    linesOf (save tasks) = tasks.map Task.to_string := by
  induction tasks with
  | nil => rfl
  | cons t ts ih =>
    have hct : cleanTask t := h t (by simp)
    have hcts : ∀ x ∈ ts, cleanTask x := fun x hx => h x (by simp [hx])
    obtain ⟨hsep, hnl, hcr⟩ := hct
    have hsplit : splitSep '\n' (Task.to_string t ++ '\n' :: save ts)
        = Task.to_string t :: splitSep '\n' (save ts) :=
      splitSep_append '\n' _ _ (newline_not_mem_to_string t hnl)
    simp only [save, linesOf, hsplit,
      dropTrailingEmpty_cons _ _ (splitSep_ne_nil '\n' (save ts)),
      List.map_cons, stripCR_to_string t hcr]
    exact congrArg (Task.to_string t :: ·) (ih hcts)

theorem load_lines_map (tasks : List Task) (h : ∀ t ∈ tasks, cleanTask t) :
    load_lines (tasks.map Task.to_string) = .ok tasks := by
  induction tasks with
  | nil => rfl
  | cons t ts ih =>
    have hct := h t (by simp)
    have hcts : ∀ x ∈ ts, cleanTask x := fun x hx => h x (by simp [hx])
    simp only [List.map_cons, load_lines, from_string_to_string t hct.1, ih hcts]

theorem load_save (tasks : List Task) (h : ∀ t ∈ tasks, cleanTask t) :
    load (save tasks) = .ok tasks := by
  unfold load
  rw [linesOf_save tasks h, load_lines_map tasks h]

theorem clean_apply_mutation (tasks tasks' : List Task) (m : Mutation)
    (hc : ∀ t ∈ tasks, cleanTask t)
    (hm : ∀ c, m = .add c → cleanStr c)
    (h : apply_mutation tasks m = .ok tasks') :
    ∀ t ∈ tasks', cleanTask t := by
  cases m with
  | add c =>
    have hc' := hm c rfl
    simp only [apply_mutation, add_task, OpResult.ok.injEq] at h
    subst h
    intro t ht
    rcases List.mem_append.1 ht with h1 | h2
    · exact hc t h1
    · simp only [List.mem_singleton] at h2
      subst h2
      exact hc'
  | complete n =>
    simp only [apply_mutation, complete_task] at h
    cases hg : tasks[n]? with
    | none => rw [hg] at h; simp at h
    | some u =>
      rw [hg] at h
      simp only [OpResult.ok.injEq] at h
      subst h
      intro t ht
      rcases List.mem_or_eq_of_mem_set ht with h1 | h2
      · exact hc t h1
      · subst h2
        exact hc u (List.getElem?_mem hg)
  | delete n =>
    simp only [apply_mutation, delete_task, vecRemove] at h
    split at h
    · simp at h
    · split at h
      · simp only [OpResult.ok.injEq] at h
        subst h
        intro t ht
        exact hc t (List.mem_of_mem_eraseIdx ht)
      · simp at h

/-! ### Claim theorems -/

/-- C1: the claim says a line splitting into more than two parts fails to
decode with `ParseError`.  It does not: the guard `!parts.len() == 2`
applies bitwise NOT to the length, so it never fires; the three-part line
`"0|a|b"` decodes successfully to a task named `"a"`, and a one-part line
panics on `parts[1]` instead of returning `ParseError`. -/
theorem C1_split_arity_not_enforced :
    Task.from_string ("0|a|b".toList) = .ok ⟨"a".toList, false⟩ ∧
    Task.from_string ("0|a|b".toList) ≠ .parseError ∧
    Task.from_string ("0".toList) = .panic := by
  decide

/-- C2: the claim says every out-of-range index for delete, including an
index equal to the list length, fails with `MissingTaskError`.  The bound
check is `tasks.len() < number`, so `delete 1` on a one-task list passes
the check and panics inside `Vec::remove` instead. -/
theorem C2_delete_at_length_panics :
    delete_task [⟨"a".toList, false⟩] 1 = .panic ∧
    delete_task [⟨"a".toList, false⟩] 1 ≠ .missingTask := by
  decide

/-- C3: the claim says a line whose first field does not parse as a
non-negative integer yields a `ParseError` result rather than a crash.
The code parses the flag with `expect("Not a number")`, so the line
`"x|name"` panics instead of returning `ParseError`. -/
theorem C3_bad_flag_panics :
    Task.from_string ("x|name".toList) = .panic ∧
    Task.from_string ("x|name".toList) ≠ .parseError := by
  decide

/-- C4 (amended): after a successful mutating operation on a list whose
task names contain neither the delimiter nor a line break (the new name
likewise clean for `add`), reloading the saved file content reproduces
the in-memory list exactly. -/
theorem C4_persistence_roundtrip (tasks tasks' : List Task) (m : Mutation)
    (hc : ∀ t ∈ tasks, cleanTask t)
    (hm : ∀ c, m = .add c → cleanStr c)
    (h : apply_mutation tasks m = .ok tasks') :
    load (save tasks') = .ok tasks' :=
  load_save tasks' (clean_apply_mutation tasks tasks' m hc hm h)

/-- Witness for C4: completing the only task of a one-task store, then
saving and reloading, gives back exactly the mutated list. -/
theorem C4_persistence_roundtrip_witness :
    load (save [⟨"ab".toList, true⟩]) = .ok [⟨"ab".toList, true⟩] :=
  C4_persistence_roundtrip [⟨"ab".toList, false⟩] [⟨"ab".toList, true⟩]
    (.complete 0) (by decide) (fun c hc => nomatch hc) (by decide)

/-- C4 fails as stated: adding the task named `"a|b"` succeeds, but
reloading the saved file gives a task named `"a"`, not the in-memory
list. -/
theorem C4_counterexample :
    apply_mutation [] (.add ("a|b".toList)) = .ok [⟨"a|b".toList, false⟩] ∧
    load (save [⟨"a|b".toList, false⟩]) = .ok [⟨"a".toList, false⟩] ∧
    LoadResult.ok [(⟨"a|b".toList, false⟩ : Task)] ≠ .ok [⟨"a".toList, false⟩] := by
  decide

/-- C5: for a task whose name contains no delimiter character, decoding
the encoded line gives back the same task, name and flag included. -/
theorem C5_decode_encode_roundtrip (t : Task) (h : SEPARATOR ∉ t.name) :
    Task.from_string t.to_string = .ok t :=
  from_string_to_string t h

/-- Witness for C5: a concrete completed task round-trips. -/
theorem C5_decode_encode_roundtrip_witness :
    Task.from_string (Task.to_string ⟨"buy milk".toList, true⟩)
      = .ok ⟨"buy milk".toList, true⟩ :=
  C5_decode_encode_roundtrip ⟨"buy milk".toList, true⟩ (by decide)

/-- C6: completing an in-range index sets that task's flag to `true`,
keeps its name, leaves every other position unchanged; an out-of-range
index fails with `MissingTaskError`. -/
theorem C6_complete_in_range_sets_flag (tasks : List Task) (n : Nat) :
    (∀ t, tasks[n]? = some t →
      complete_task tasks n = .ok (tasks.set n t.complete) ∧
      (tasks.set n t.complete)[n]? = some ⟨t.name, true⟩ ∧
      (∀ j, j ≠ n → (tasks.set n t.complete)[j]? = tasks[j]?)) ∧
    (tasks.length ≤ n → complete_task tasks n = .missingTask) := by
  constructor
  · intro t ht
    refine ⟨by simp [complete_task, ht], ?_, ?_⟩
    · have hn : n < tasks.length := (List.getElem?_eq_some_iff.1 ht).1
      rw [List.getElem?_set_self hn]
      rfl
    · intro j hj
      exact List.getElem?_set_ne (Ne.symm hj)
  · intro hlen
    simp [complete_task, List.getElem?_eq_none hlen]

/-- Witness for C6: `complete 0` on a one-task list marks the task done;
`complete 5` on the same list fails with `MissingTaskError`. -/
theorem C6_complete_in_range_sets_flag_witness :
    complete_task [⟨"a".toList, false⟩] 0 = .ok [⟨"a".toList, true⟩] ∧
    complete_task [⟨"a".toList, false⟩] 5 = .missingTask := by
  constructor
  · exact ((C6_complete_in_range_sets_flag [⟨"a".toList, false⟩] 0).1
      ⟨"a".toList, false⟩ rfl).1
  · exact (C6_complete_in_range_sets_flag [⟨"a".toList, false⟩] 5).2 (by decide)

/-- C7: deleting an in-range index removes exactly that task; positions
before it are untouched and every later task shifts down one index. -/
theorem C7_delete_renumbers (tasks : List Task) (n : Nat) (h : n < tasks.length) :
    delete_task tasks n = .ok (tasks.eraseIdx n) ∧
    (tasks.eraseIdx n).length = tasks.length - 1 ∧
    (∀ j, j < n → (tasks.eraseIdx n)[j]? = tasks[j]?) ∧
    (∀ j, n ≤ j → (tasks.eraseIdx n)[j]? = tasks[j + 1]?) := by
  refine ⟨?_, List.length_eraseIdx_of_lt h, ?_, ?_⟩
  · unfold delete_task vecRemove
    rw [if_neg (by omega), if_pos h]
  · intro j hj
    exact List.getElem?_eraseIdx_of_lt tasks n j hj
  · intro j hj
    exact List.getElem?_eraseIdx_of_ge tasks n j hj

/-- Witness for C7: with three tasks, `delete 1` leaves two tasks and the
former index-2 task is now at index 1. -/
theorem C7_delete_renumbers_witness :
    delete_task [⟨"a".toList, false⟩, ⟨"b".toList, false⟩, ⟨"c".toList, true⟩] 1
      = .ok [⟨"a".toList, false⟩, ⟨"c".toList, true⟩] ∧
    [(⟨"a".toList, false⟩ : Task), ⟨"c".toList, true⟩].length = 2 ∧
    [(⟨"a".toList, false⟩ : Task), ⟨"c".toList, true⟩][1]? = some ⟨"c".toList, true⟩ := by
  have h := C7_delete_renumbers
    [⟨"a".toList, false⟩, ⟨"b".toList, false⟩, ⟨"c".toList, true⟩] 1 (by decide)
  exact ⟨h.1, by decide, by decide⟩

/-- C8: when the first field parses as some integer `v`, decoding
succeeds and the flag is `v == 1`: any `v ≠ 1` (such as `2`) is mapped to
an incomplete task, and only `v = 1` gives a completed one. -/
theorem C8_lenient_flag (line p0 p1 : Str) (ps : List Str) (v : Nat)
    (hs : splitSep SEPARATOR line = p0 :: p1 :: ps)
    (hlen : line.length < 2 ^ 63)
    (hv : parseUsize p0 = some v) :
    Task.from_string line = .ok ⟨p1, v == 1⟩ ∧
    (v ≠ 1 → Task.from_string line = .ok ⟨p1, false⟩) ∧
    (v = 1 → Task.from_string line = .ok ⟨p1, true⟩) := by
  have hck : usizeNot (p0 :: p1 :: ps).length ≠ 2 := by
    have hle := splitSep_length_le SEPARATOR line
    rw [hs] at hle
    exact usizeNot_ne_two _ (by omega)
  have hmain := from_string_eq_ok line p0 p1 ps v hs hck hv
  refine ⟨hmain, ?_, ?_⟩
  · intro hne
    rw [hmain]
    have : (v == 1) = false := by simpa using hne
    rw [this]
  · intro he
    subst he
    rw [hmain]
    rfl

/-- Witness for C8: the flag `2` decodes as an incomplete task. -/
theorem C8_lenient_flag_witness :
    Task.from_string ("2|x".toList) = .ok ⟨"x".toList, false⟩ :=
  (C8_lenient_flag ("2|x".toList) ("2".toList) ("x".toList) [] 2
    (by decide) (by decide) (by decide)).2.1 (by decide)

/-- C9: `Command::build` lowercases the command word before matching, so
any capitalization of `add`, `list`, `complete`, `delete` parses to the
corresponding command (given its argument), and any word that is none of
the four after lowercasing fails with `UnsupportedCommandError`. -/
theorem C9_build_case_insensitive (prog w : Str) (rest : List Str) :
    (toLowerStr w = "add".toList →
      ∀ t rs, rest = t :: rs → Command.build (prog :: w :: rest) = .ok (.add t)) ∧
    (toLowerStr w = "list".toList → Command.build (prog :: w :: rest) = .ok .list) ∧
    (toLowerStr w = "complete".toList →
      ∀ s rs v, rest = s :: rs → parseUsize s = some v →
        Command.build (prog :: w :: rest) = .ok (.complete v)) ∧
    (toLowerStr w = "delete".toList →
      ∀ s rs v, rest = s :: rs → parseUsize s = some v →
        Command.build (prog :: w :: rest) = .ok (.delete v)) ∧
    (toLowerStr w ≠ "add".toList → toLowerStr w ≠ "list".toList →
      toLowerStr w ≠ "complete".toList → toLowerStr w ≠ "delete".toList →
      Command.build (prog :: w :: rest) = .err .unsupportedCommand) := by
  refine ⟨?_, ?_, ?_, ?_, ?_⟩
  · intro h t rs hrest
    subst hrest
    simp [Command.build, h]
  · intro h
    simp [Command.build, h]
  · intro h s rs v hrest hv
    subst hrest
    simp [Command.build, h, hv]
  · intro h s rs v hrest hv
    subst hrest
    simp [Command.build, h, hv]
  · intro h1 h2 h3 h4
    simp only [Command.build]
    rw [if_neg h1, if_neg h2, if_neg (not_or.mpr ⟨h3, h4⟩)]

/-- Witness for C9: mixed-case spellings of the four commands parse, and
`foo` is rejected as unsupported. -/
theorem C9_build_case_insensitive_witness :
    Command.build ["p".toList, "AdD".toList, "milk".toList] = .ok (.add ("milk".toList)) ∧
    Command.build ["p".toList, "LIST".toList] = .ok .list ∧
    Command.build ["p".toList, "Complete".toList, "2".toList] = .ok (.complete 2) ∧
    Command.build ["p".toList, "DeLeTe".toList, "0".toList] = .ok (.delete 0) ∧
    Command.build ["p".toList, "foo".toList] = .err .unsupportedCommand := by
  refine ⟨?_, ?_, ?_, ?_, ?_⟩
  · exact (C9_build_case_insensitive ("p".toList) ("AdD".toList) _).1
      (by decide) ("milk".toList) [] rfl
  · exact (C9_build_case_insensitive ("p".toList) ("LIST".toList) []).2.1 (by decide)
  · exact (C9_build_case_insensitive ("p".toList) ("Complete".toList) _).2.2.1
      (by decide) ("2".toList) [] 2 rfl (by decide)
  · exact (C9_build_case_insensitive ("p".toList) ("DeLeTe".toList) _).2.2.2.1
      (by decide) ("0".toList) [] 0 rfl (by decide)
  · exact (C9_build_case_insensitive ("p".toList) ("foo".toList) []).2.2.2.2
      (by decide) (by decide) (by decide) (by decide)

/-- C10: a line with two or more delimiters whose first field parses as
an integer decodes successfully; the resulting name is exactly the text
between the first and second delimiter, and everything after the second
delimiter is silently dropped. -/
theorem C10_extra_fields_truncated (p0 p1 rest : Str) (v : Nat)
    (h0 : SEPARATOR ∉ p0) (h1 : SEPARATOR ∉ p1)
    (hv : parseUsize p0 = some v)
    (hlen : p0.length + p1.length + rest.length + 2 < 2 ^ 63) :
    Task.from_string (p0 ++ SEPARATOR :: p1 ++ SEPARATOR :: rest) = .ok ⟨p1, v == 1⟩ := by
  have hs : splitSep SEPARATOR (p0 ++ SEPARATOR :: p1 ++ SEPARATOR :: rest)
      = p0 :: p1 :: splitSep SEPARATOR rest := by
    rw [show p0 ++ SEPARATOR :: p1 ++ SEPARATOR :: rest
        = p0 ++ SEPARATOR :: (p1 ++ SEPARATOR :: rest) from by simp,
      splitSep_append SEPARATOR p0 _ h0, splitSep_append SEPARATOR p1 rest h1]
  have hck : usizeNot (p0 :: p1 :: splitSep SEPARATOR rest).length ≠ 2 := by
    have hle := splitSep_length_le SEPARATOR rest
    apply usizeNot_ne_two
    simp only [List.length_cons]
    omega
  exact from_string_eq_ok _ p0 p1 _ v hs hck hv

/-- Witness for C10: `"1|x|y|z"` decodes to the completed task named
`"x"`, dropping `"|y|z"`. -/
theorem C10_extra_fields_truncated_witness :
    Task.from_string ("1|x|y|z".toList) = .ok ⟨"x".toList, true⟩ :=
  C10_extra_fields_truncated ("1".toList) ("x".toList) ("y|z".toList) 1
    (by decide) (by decide) (by decide) (by decide)

end Todos
